import Mathlib

/-!
Verification of the chess rules engine in src/chess.c against its specification.

The C module keeps one process-wide `struct chess_game game` plus the globals
`player[0]` and `cpu[0]` (the human's and the machine's color characters).  The
shallow embedding passes these globals explicitly: every function that reads
the global game state takes it as a `ChessGame` argument, and every function
that writes it returns the updated `ChessGame`.  Machine integers are modelled
as `Int`; the 8x8 `int board[8][8]` is modelled as a total function
`Int → Int → Int` that is `0` outside the array (reads the C performs out of
bounds are undefined behaviour; the embedding makes them read `0`), and
uninitialized C locals are modelled by an explicit junk default at the
corresponding `else` branch, marked by a comment.
-/

namespace Chess

/-- A board square value: 0 empty, sign is color (+ white, - black),
magnitude 1..6 is pawn, knight, bishop, rook, queen, king. -/
abbrev Board := Int → Int → Int

/-- Point write to the board, `board[r][c] = v` in the C source. -/
def bset (b : Board) (r c v : Int) : Board :=
  fun x y => if x = r ∧ y = c then v else b x y

/-- Mirrors `struct chess_game`: the 8x8 grid, the two king-coordinate caches
(`white_king[0..1]`, `black_king[0..1]` become the two components of a pair),
whose turn it is, and the check flag. -/
structure ChessGame where
  board : Board
  white_king : Int × Int
  black_king : Int × Int
  current_turn : Int
  check : Bool

/-- The two directive tokens of a move request are `char arr[4]` buffers in C;
only the first three characters are ever read (`arr[0]`, `arr[1]`, `arr[2]`). -/
structure Dir where
  c0 : Char
  c1 : Char
  c2 : Char

/-- An all-zero directive buffer (`char action[4] = {0}` in `dev_write`). -/
def noDir : Dir := ⟨Char.ofNat 0, Char.ofNat 0, Char.ofNat 0⟩

/-- Builds a board from a list of `(row, col, value)` entries; squares not
listed are empty. Used only to state concrete test positions. -/
def mkBoard : List (Int × Int × Int) → Board
  | [] => fun _ _ => 0
  | (r, c, v) :: rest => bset (mkBoard rest) r c v

/-- The back rank of `board_init`, as a function of the column:
rooks at 0 and 7, knights at 1 and 6, bishops at 2 and 5, queen at 3,
king at 4. -/
def backRank (c : Int) : Int :=
  if c = 0 ∨ c = 7 then 4
  else if c = 1 ∨ c = 6 then 2
  else if c = 2 ∨ c = 5 then 3
  else if c = 3 then 5
  else if c = 4 then 6
  else 0

/-- The board set up by `board_init`: pawns on rows 1 and 6, the white back
rank on row 0 and the black back rank on row 7 (white is positive). -/
def initBoard : Board := fun r c =>
  if 0 ≤ r ∧ r < 8 ∧ 0 ≤ c ∧ c < 8 then
    if r = 1 then 1
    else if r = 6 then -1
    else if r = 0 then backRank c
    else if r = 7 then -(backRank c)
    else 0
  else 0

/-- Mirrors `board_init` (src/chess.c:404-442): standard setup, and note the
king caches are written as `white_king = {4, 0}`, `black_king = {4, 7}`, i.e.
in (column, row) order for the kings on squares (row 0, col 4) and
(row 7, col 4). `current_turn = 1`, `check = false`. -/
def board_init : ChessGame :=
  { board := initBoard
    white_king := (4, 0)
    black_king := (4, 7)
    current_turn := 1
    check := false }

/-- The eight ray directions (rook and bishop lines) filled into
`directions[8][2]` at the top of `king_check`. -/
def rayDirs : List (Int × Int) :=
  [(1, 0), (-1, 0), (0, 1), (0, -1), (1, 1), (-1, -1), (1, -1), (-1, 1)]

/-- The knight offsets filled into `knight_directions[8][2]` in `king_check`. -/
def knightDirs : List (Int × Int) :=
  [(2, 1), (2, -1), (-2, 1), (-2, -1), (1, 2), (1, -2), (-1, 2), (-1, -2)]

/-- The nine (dx, dy) pairs of the two nested `for` loops of the king-adjacency
phase of `king_check`, in loop order (dx outer from -1 to 1, dy inner). -/
def kingDirs9 : List (Int × Int) :=
  [(-1, -1), (-1, 0), (-1, 1), (0, -1), (0, 0), (0, 1), (1, -1), (1, 0), (1, 1)]

/-- One ray of phase 1 of `king_check` (src/chess.c:1225-1241): walk from the
square next to the king in direction (dx, dy) until leaving the board or
hitting a piece; a hit is an attack when the occupant has the opposite color
and is a queen, a rook on an orthogonal ray, or a bishop on a diagonal ray;
any other occupant ends the ray.  The C while loop runs at most 8 iterations
(each step moves some coordinate by 1 inside 0..7), so fuel 8 is exact. -/
def rayHit (b : Board) (color : Char) (dx dy : Int) : Int → Int → Nat → Bool
  | _, _, 0 => false
  | x, y, fuel + 1 =>
    if 0 ≤ x ∧ x < 8 ∧ 0 ≤ y ∧ y < 8 then
      if b x y ≠ 0 then
        if ((color = 'W' ∧ b x y < 0) ∨ (color = 'B' ∧ b x y > 0)) ∧
            ((b x y).natAbs = 5 ∨
             ((b x y).natAbs = 4 ∧ (dx = 0 ∨ dy = 0)) ∨
             ((b x y).natAbs = 3 ∧ dx ≠ 0 ∧ dy ≠ 0)) then true
        else false
      else rayHit b color dx dy (x + dx) (y + dy) fuel
    else false

/-- Mirrors `king_check` (src/chess.c:1149-1303).  The king position is
re-read from the color's cache with the two cached components swapped
(`king_position[0] = cache[1]`, `king_position[1] = cache[0]`), so the
`king_row`/`king_col` parameters are dead; and the pawn-attack direction is
derived from the human player's color `playerC` (the global `player[0]`),
not from the `color` argument.  The pawn conditions reproduce the C
parenthesization exactly: the column bound guards only apply to the
white-king side of each disjunction. -/
def king_check (playerC : Char) (g : ChessGame) (king_row king_col : Int)
    (color : Char) : Bool :=
  let p0 : Int := if color = 'W' then g.white_king.2 else g.black_king.2
  let p1 : Int := if color = 'W' then g.white_king.1 else g.black_king.1
  let b := g.board
  if rayDirs.any (fun d => rayHit b color d.1 d.2 (p0 + d.1) (p1 + d.2) 8) then
    true
  else if knightDirs.any (fun d =>
      decide (0 ≤ p0 + d.1 ∧ p0 + d.1 < 8 ∧ 0 ≤ p1 + d.2 ∧ p1 + d.2 < 8 ∧
        ((color = 'W' ∧ b (p0 + d.1) (p1 + d.2) = -2) ∨
         (color = 'B' ∧ b (p0 + d.1) (p1 + d.2) = 2)))) then
    true
  else
    let pawn_direction : Int :=
      if playerC = 'W' then -1
      else if playerC = 'B' then 1
      else 0  -- junk: the C local is uninitialized when player[0] is unset
    let pawn_row := p0 + pawn_direction
    if 0 ≤ pawn_row ∧ pawn_row < 8 ∧
        (((p1 > 0 ∧ (color = 'W' ∧ b pawn_row (p1 - 1) = -1)) ∨
          (color = 'B' ∧ b pawn_row (p1 - 1) = 1)) ∨
         ((p1 < 7 ∧ (color = 'W' ∧ b pawn_row (p1 + 1) = -1)) ∨
          (color = 'B' ∧ b pawn_row (p1 + 1) = 1))) then
      true
    else if kingDirs9.any (fun d =>
        decide (0 ≤ p0 + d.1 ∧ p0 + d.1 < 8 ∧ 0 ≤ p1 + d.2 ∧ p1 + d.2 < 8 ∧
          ((color = 'W' ∧ b (p0 + d.1) (p1 + d.2) = -6) ∨
           (color = 'B' ∧ b (p0 + d.1) (p1 + d.2) = 6)))) then
      true
    else false

/-- The walk shared by the three loops of `clear_path` (src/chess.c:473-530):
starting at (i, j) and stepping by (rd, cd), inspect `m` squares.  A non-empty
square ends the walk: at the destination (er, ec) the result is the
capture-assert flag `x`, anywhere else it is false.  If all `m` squares are
empty the walk falls through to `return true`.  `m` is the exact iteration
count of the C loop: `|er - sr|` for the vertical loop (the column never
advances, modelled by cd = 0), `|ec - sc|` for the horizontal one (rd = 0),
and `min |er - sr| |ec - sc|` for the diagonal loop, whose condition stops
when either coordinate passes its bound. -/
def scanPath (b : Board) (x : Bool) (er ec rd cd : Int) :
    Int → Int → Nat → Bool
  | _, _, 0 => true
  | i, j, m + 1 =>
    if b i j ≠ 0 then
      if i = er ∧ j = ec then x else false
    else scanPath b x er ec rd cd (i + rd) (j + cd) m

/-- Mirrors `clear_path` (src/chess.c:446-533).  The C computes
`row_direction`/`col_direction` as 1 when the delta is positive and -1
otherwise; the horizontal branch never reads `row_direction` and the vertical
branch never reads `col_direction`, so the unused one is passed as 0 to
`scanPath` (where it only shifts a coordinate the C loop leaves fixed). -/
def clear_path (g : ChessGame) (arr : Dir) (sr sc er ec : Int) : Bool :=
  let rd : Int := if er - sr > 0 then 1 else -1
  let cd : Int := if ec - sc > 0 then 1 else -1
  let x : Bool := decide (arr.c0 = 'x')
  if sr ≠ er ∧ sc ≠ ec then
    if (er - sr).natAbs = 1 ∧ (ec - sc).natAbs = 1 then
      if g.board er ec ≠ 0 ∧ arr.c0 ≠ 'x' then false else true
    else
      scanPath g.board x er ec rd cd (sr + rd) (sc + cd)
        (min (er - sr).natAbs (ec - sc).natAbs)
  else if sr ≠ er then
    if (er - sr).natAbs = 1 then
      if g.board er ec ≠ 0 ∧ arr.c0 ≠ 'x' then false else true
    else if er - sr > 1 ∨ er - sr < -1 then
      scanPath g.board x er ec rd 0 (sr + rd) sc (er - sr).natAbs
    else true
  else if sc ≠ ec then
    if (ec - sc).natAbs = 1 then
      if g.board er ec ≠ 0 ∧ arr.c0 ≠ 'x' then false else true
    else if ec - sc > 1 ∨ ec - sc < -1 then
      scanPath g.board x er ec 0 cd sr (sc + cd) (ec - sc).natAbs
    else true
  else true

/-- Mirrors `valid_opponent_piece` (src/chess.c:1088-1135): the destination of
a capture-assert must be on the board and hold a piece of the opposite color
whose signed value equals the color/kind named by the directive characters
`a0 a1` (`array[0]`, `array[1]`, i.e. `arr[1]`, `arr[2]` at the call sites).
The C `switch` default returns 0 (false); an unrecognized color character
leaves `match` uninitialized, modelled as sign 0, which can never equal a
non-empty occupant. -/
def valid_opponent_piece (g : ChessGame) (row col piece : Int)
    (a0 a1 : Char) : Bool :=
  if row < 0 ∨ 8 ≤ row ∨ col < 0 ∨ 8 ≤ col then false
  else
    let opponent := g.board row col
    let sign : Int := if a0 = 'W' then 1 else if a0 = 'B' then -1 else 0
    if a1 = 'P' ∨ a1 = 'N' ∨ a1 = 'B' ∨ a1 = 'R' ∨ a1 = 'Q' ∨ a1 = 'K' then
      let m : Int := sign *
        (if a1 = 'P' then 1 else if a1 = 'N' then 2 else if a1 = 'B' then 3
         else if a1 = 'R' then 4 else if a1 = 'Q' then 5 else 6)
      if opponent = 0 then false
      else if ((piece > 0 ∧ opponent < 0) ∨ (piece < 0 ∧ opponent > 0)) ∧
          opponent = m then true
      else false
    else false

/-- The board during the speculative apply of the self-check guard:
`board[end] = board[start]; board[start] = EMPTY`. -/
def move_board (b : Board) (sr sc er ec : Int) : Board :=
  bset (bset b er ec (b sr sc)) sr sc 0

/-- The revert half of the guard:
`board[start] = board[end]; board[end] = temp`. -/
def revert_board (b : Board) (sr sc er ec temp : Int) : Board :=
  bset (bset b sr sc (b er ec)) er ec temp

/-- The self-check guard block repeated throughout `legal_move` and
`cpu_legal_move` (e.g. src/chess.c:549-577): speculatively apply the move to
the board, ask `king_check` whether the king of color `colorC` (the global
`player[0]` in `legal_move`, `cpu[0]` in `cpu_legal_move`) is attacked, then
revert.  The revert restores the pre-move board exactly
(`move_board_revert` below), so the guard is embedded as a pure read of the
moved board.  When the piece equals +KING the post-move square is passed to
`king_check` (whose coordinate parameters are dead); otherwise the cached
coordinates of colorC's king are passed, (0, 0) standing for the
uninitialized C locals when colorC is neither W nor B. -/
def spec_check (playerC colorC : Char) (g : ChessGame)
    (sr sc er ec piece : Int) : Bool :=
  let g2 : ChessGame := { g with board := move_board g.board sr sc er ec }
  if piece = 6 then king_check playerC g2 er ec colorC
  else
    let kr : Int :=
      if colorC = 'W' then g.white_king.1
      else if colorC = 'B' then g.black_king.1 else 0
    let kc : Int :=
      if colorC = 'W' then g.white_king.2
      else if colorC = 'B' then g.black_king.2 else 0
    king_check playerC g2 kr kc colorC

/-- Result of the guard as used after the chain of each piece branch: the move
stands only if the speculative apply does not leave the mover's king
attacked. -/
def pass_guard (playerC colorC : Char) (g : ChessGame)
    (sr sc er ec piece : Int) : Bool :=
  if spec_check playerC colorC g sr sc er ec piece = true then false else true

/-- The sign drawn from the color character of a promotion directive
(`if (arr[1] == 'W') promotion = 1; else if (arr[1] == 'B') promotion = -1;`);
0 models the uninitialized C local for any other character. -/
def promoSign (c : Char) : Int :=
  if c = 'W' then 1 else if c = 'B' then -1 else 0

/-- The kind factor of the promotion `switch` in `legal_move`
(src/chess.c:600-616): N, B, R, Q multiply by 2..5 and the `default` case
multiplies by 1, so an unrecognized kind character leaves the base pawn
magnitude. -/
def kindMul (k : Char) : Int :=
  if k = 'N' then 2 else if k = 'B' then 3 else if k = 'R' then 4
  else if k = 'Q' then 5 else 1

/-- The value `legal_move` writes to the start square when it consumes a
promotion directive with color character c and kind character k. -/
def promoVal (c k : Char) : Int := promoSign c * kindMul k

/-- The rook branch of `legal_move` (src/chess.c:540-578): reject moves that
change both row and column, blocked paths, any quiet-assert, and
capture-asserts naming the wrong occupant; then apply the self-check guard. -/
def lm_rook (playerC : Char) (g : ChessGame) (sr sc er ec piece : Int)
    (arr arr2 : Dir) : Bool :=
  let bC : Bool :=
    if sr ≠ er ∧ sc ≠ ec then false
    else if ¬ clear_path g arr sr sc er ec = true then false
    else if arr.c0 = 'y' ∨ arr2.c0 = 'y' then false
    else if arr.c0 = 'x' ∧ arr2.c0 ≠ 'y' then
      valid_opponent_piece g er ec piece arr.c1 arr.c2
    else true
  if bC = true then pass_guard playerC playerC g sr sc er ec piece else false

/-- The bishop branch of `legal_move` (src/chess.c:812-850): same chain as the
rook with the diagonal shape check. -/
def lm_bishop (playerC : Char) (g : ChessGame) (sr sc er ec piece : Int)
    (arr arr2 : Dir) : Bool :=
  let bC : Bool :=
    if ¬ (sr - er).natAbs = (sc - ec).natAbs then false
    else if ¬ clear_path g arr sr sc er ec = true then false
    else if arr2.c0 = 'y' ∨ arr.c0 = 'y' then false
    else if arr.c0 = 'x' ∧ arr2.c0 ≠ 'y' then
      valid_opponent_piece g er ec piece arr.c1 arr.c2
    else true
  if bC = true then pass_guard playerC playerC g sr sc er ec piece else false

/-- The queen branch of `legal_move` (src/chess.c:854-894): the rook/bishop
chain behind the combined shape test; a shape failure returns false with no
guard. -/
def lm_queen (playerC : Char) (g : ChessGame) (sr sc er ec piece : Int)
    (arr arr2 : Dir) : Bool :=
  if (sr = er ∨ sc = ec) ∨ (sr - er).natAbs = (sc - ec).natAbs then
    let bC : Bool :=
      if ¬ clear_path g arr sr sc er ec = true then false
      else if arr2.c0 = 'y' ∨ arr.c0 = 'y' then false
      else if arr.c0 = 'x' ∧ arr2.c0 ≠ 'y' then
        valid_opponent_piece g er ec piece arr.c1 arr.c2
      else true
    if bC = true then pass_guard playerC playerC g sr sc er ec piece else false
  else false

/-- The knight branch of `legal_move` (src/chess.c:767-809).  The first C
statement (`if (empty ∧ ...) beforeCheck = true`) only re-asserts the initial
true and is absorbed by the final else. -/
def lm_knight (playerC : Char) (g : ChessGame) (sr sc er ec piece : Int)
    (arr arr2 : Dir) : Bool :=
  if ((sr - er).natAbs = 2 ∧ (sc - ec).natAbs = 1) ∨
      ((sr - er).natAbs = 1 ∧ (sc - ec).natAbs = 2) then
    let bC : Bool :=
      if g.board er ec = 0 ∧ (arr.c0 = 'x' ∨ arr2.c0 = 'y' ∨ arr.c0 = 'y') then
        false
      else if g.board er ec ≠ 0 ∧ arr.c0 = 'x' ∧ arr2.c0 ≠ 'y' then
        valid_opponent_piece g er ec piece arr.c1 arr.c2
      else if g.board er ec ≠ 0 then false
      else true
    if bC = true then pass_guard playerC playerC g sr sc er ec piece else false
  else false

/-- The king branch of `legal_move` (src/chess.c:897-934).  A capture-assert
onto an occupied square returns `valid_opponent_piece` directly, with no
self-check guard (the C `return` at line 900); an occupied square without a
well-formed capture-assert is rejected; a quiet destination goes through the
guard. -/
def lm_king (playerC : Char) (g : ChessGame) (sr sc er ec piece : Int)
    (arr arr2 : Dir) : Bool :=
  if (sr - er).natAbs ≤ 1 ∧ (sc - ec).natAbs ≤ 1 then
    if g.board er ec ≠ 0 ∧ arr.c0 = 'x' ∧ arr2.c0 ≠ 'y' then
      valid_opponent_piece g er ec piece arr.c1 arr.c2
    else if g.board er ec ≠ 0 ∧ (arr.c0 ≠ 'x' ∨ arr2.c0 = 'y') then false
    else pass_guard playerC playerC g sr sc er ec piece
  else false

/-- The pawn branch of `legal_move` (src/chess.c:580-763).  Three sub-branches:
single forward step (with the promotion chain on `arr`), double step from the
starting rank, and diagonal capture (with the promotion chain on `arr2`).
The promotion chain writes `promoVal` to the start square on the live board
and only then runs the self-check guard, so that write is part of the
returned state even when the guard rejects. -/
def lm_pawn (playerC : Char) (g : ChessGame) (sr sc er ec piece : Int)
    (arr arr2 : Dir) : Bool × ChessGame :=
  let direction : Int := if piece > 0 then 1 else -1
  if sc = ec ∧ er = sr + direction then
    let isLegal := clear_path g arr sr sc er ec
    if isLegal = true ∧ ((er = 7 ∧ playerC = 'W') ∨ (er = 0 ∧ playerC = 'B')) ∧
        arr.c0 = 'y' ∧ arr.c2 ≠ 'P' ∧ arr.c2 ≠ 'K' ∧ arr.c1 = playerC then
      let g2 : ChessGame :=
        { g with board := bset g.board sr sc (promoVal arr.c1 arr.c2) }
      (pass_guard playerC playerC g2 sr sc er ec piece, g2)
    else if isLegal = true ∧
        ((er = 7 ∧ playerC = 'W') ∨ (er = 0 ∧ playerC = 'B')) ∧
        arr.c0 = 'y' ∧ (arr.c1 ≠ playerC ∨ arr.c2 = 'P' ∨ arr.c2 = 'K') then
      (false, g)
    else if isLegal = true ∧
        ((er = 7 ∧ playerC = 'W') ∨ (er = 0 ∧ playerC = 'B')) ∧
        arr.c0 ≠ 'y' then
      (false, g)
    else if isLegal = true ∧
        ((er ≠ 7 ∧ playerC = 'W') ∨ (er ≠ 0 ∧ playerC = 'B')) ∧
        (arr.c0 = 'x' ∨ arr.c0 = 'y' ∨ arr2.c0 = 'y') then
      (false, g)
    else
      (if isLegal = true then pass_guard playerC playerC g sr sc er ec piece
       else false, g)
  else if sc = ec ∧ er = sr + 2 * direction ∧
      ((piece > 0 ∧ sr = 1) ∨ (piece < 0 ∧ sr = 6)) then
    let isLegal := clear_path g arr sr sc er ec
    if isLegal = true ∧ (arr.c0 = 'y' ∨ arr.c0 = 'x' ∨ arr2.c0 = 'y') then
      (false, g)
    else
      (if isLegal = true then pass_guard playerC playerC g sr sc er ec piece
       else false, g)
  else if (sc - ec).natAbs = 1 ∧ er = sr + direction ∧ arr.c0 = 'x' then
    let isLegal :=
      valid_opponent_piece g (sr + direction) ec piece arr.c1 arr.c2
    if isLegal = true ∧ ((er = 7 ∧ playerC = 'W') ∨ (er = 0 ∧ playerC = 'B')) ∧
        arr2.c0 = 'y' ∧ arr2.c2 ≠ 'P' ∧ arr2.c2 ≠ 'K' ∧ arr2.c1 = playerC then
      let g2 : ChessGame :=
        { g with board := bset g.board sr sc (promoVal arr2.c1 arr2.c2) }
      (pass_guard playerC playerC g2 sr sc er ec piece, g2)
    else if isLegal = true ∧
        ((er = 7 ∧ playerC = 'W') ∨ (er = 0 ∧ playerC = 'B')) ∧
        arr2.c0 = 'y' ∧ (arr2.c1 ≠ playerC ∨ arr2.c2 = 'P' ∨ arr2.c2 = 'K') then
      (false, g)
    else if isLegal = true ∧
        ((er = 7 ∧ playerC = 'W') ∨ (er = 0 ∧ playerC = 'B')) ∧
        arr2.c0 ≠ 'y' then
      (false, g)
    else if isLegal = true ∧
        ((er ≠ 7 ∧ playerC = 'W') ∨ (er ≠ 0 ∧ playerC = 'B')) ∧
        arr2.c0 = 'y' then
      (false, g)
    else
      (if isLegal = true then pass_guard playerC playerC g sr sc er ec piece
       else false, g)
  else (false, g)

/-- Mirrors `legal_move` (src/chess.c:536-937).  The result pairs the C
return value with the global game state after the call: only the pawn
promotion chain writes the live board, every other branch restores it
exactly, and falling past every piece kind returns the initial
`beforeCheck = true`. -/
def legal_move (playerC : Char) (g : ChessGame) (sr sc er ec piece : Int)
    (arr arr2 : Dir) : Bool × ChessGame :=
  if piece.natAbs = 4 then (lm_rook playerC g sr sc er ec piece arr arr2, g)
  else if piece.natAbs = 1 then lm_pawn playerC g sr sc er ec piece arr arr2
  else if piece.natAbs = 2 then
    (lm_knight playerC g sr sc er ec piece arr arr2, g)
  else if piece.natAbs = 3 then
    (lm_bishop playerC g sr sc er ec piece arr arr2, g)
  else if piece.natAbs = 5 then
    (lm_queen playerC g sr sc er ec piece arr arr2, g)
  else if piece.natAbs = 6 then
    (lm_king playerC g sr sc er ec piece arr arr2, g)
  else (true, g)

/-- Mirrors `perform_move` (src/chess.c:1038-1085): write the proposed piece
value to the destination, clear the start square, recompute the check flag
for the opponent of the side whose turn it is (from the opponent's cache,
before any cache update), then update a king cache if a king moved — chosen
by the human player's color, and written in (end_row, end_col) order — and
flip the turn.  The `opponent` local is uninitialized when neither color
global matches the turn; that case is modelled by a junk character. -/
def perform_move (playerC cpuC : Char) (g : ChessGame)
    (sr sc er ec piece : Int) : ChessGame :=
  let b2 := bset (bset g.board er ec piece) sr sc 0
  let opponent : Char :=
    if (playerC = 'W' ∨ cpuC = 'W') ∧ g.current_turn = 1 then 'B'
    else if (playerC = 'B' ∨ cpuC = 'B') ∧ g.current_turn = -1 then 'W'
    else 'X'  -- junk: uninitialized in C
  let kr : Int :=
    if opponent = 'W' then g.white_king.1
    else if opponent = 'B' then g.black_king.1 else 0
  let kc : Int :=
    if opponent = 'W' then g.white_king.2
    else if opponent = 'B' then g.black_king.2 else 0
  let chk := king_check playerC { g with board := b2 } kr kc opponent
  let wk := if piece.natAbs = 6 ∧ playerC = 'W' then (er, ec) else g.white_king
  let bk := if piece.natAbs = 6 ∧ ¬ playerC = 'W' then (er, ec) else g.black_king
  { board := b2
    white_king := wk
    black_king := bk
    current_turn := -g.current_turn
    check := chk }

/-- The 64 (row, col) pairs of a nested `for (0..7) for (0..7)` loop, in loop
order. -/
def pairs64 : List (Int × Int) :=
  (List.range 8).flatMap fun i =>
    (List.range 8).map fun j => ((i : Int), (j : Int))

/-- The side-to-move color computed at the top of `is_checkmate` and
`cpu_checkmate`; the character stays uninitialized in C when the turn is 0,
modelled by a junk character. -/
def cm_color (turn : Int) : Char :=
  if turn > 0 then 'W' else if turn < 0 then 'B' else 'X'

/-- The destination loop of the `is_checkmate` search (src/chess.c:1342-1352)
for one start square.  `gp` is the `struct chess_game *game` parameter (the
caller's copy), `glob` the threaded live global state.  A passing
`legal_move` triggers a real `perform_move` on the global state; the escape
test then re-reads the unmodified parameter copy `gp` (the C snapshots
`temp_game = *game` from the parameter), and only a negative answer stops
the search (`Sum.inr`). -/
def cm_inner (playerC cpuC : Char) (gp : ChessGame) (color : Char)
    (kr kc sr sc piece : Int) (arr arr2 : Dir) :
    List (Int × Int) → ChessGame → ChessGame ⊕ (Bool × ChessGame)
  | [], glob => Sum.inl glob
  | (er, ec) :: rest, glob =>
    let r := legal_move playerC glob sr sc er ec piece arr arr2
    if r.1 = true then
      let glob2 := perform_move playerC cpuC r.2 sr sc er ec piece
      if ¬ king_check playerC gp kr kc color = true then Sum.inr (false, glob2)
      else cm_inner playerC cpuC gp color kr kc sr sc piece arr arr2 rest glob2
    else cm_inner playerC cpuC gp color kr kc sr sc piece arr arr2 rest r.2

/-- The start-square loop of the `is_checkmate` search: the piece is read from
the parameter copy `gp`, once per start square, before the destination loop. -/
def cm_outer (playerC cpuC : Char) (gp : ChessGame) (color : Char)
    (kr kc : Int) (arr arr2 : Dir) :
    List (Int × Int) → ChessGame → Bool × ChessGame
  | [], glob => (true, glob)
  | (sr, sc) :: rest, glob =>
    let piece := gp.board sr sc
    if (color = 'W' ∧ piece > 0) ∨ (color = 'B' ∧ piece < 0) then
      match cm_inner playerC cpuC gp color kr kc sr sc piece arr arr2
          pairs64 glob with
      | Sum.inl glob2 =>
        cm_outer playerC cpuC gp color kr kc arr arr2 rest glob2
      | Sum.inr res => res
    else cm_outer playerC cpuC gp color kr kc arr arr2 rest glob

/-- Mirrors `is_checkmate` (src/chess.c:1306-1358).  `gp` is the state passed
by pointer (a pre-move copy at the call site); `glob` is the live global
`game`, which `legal_move` and `perform_move` operate on.  The result pairs
the C return value with the live global state after the call. -/
def is_checkmate (playerC cpuC : Char) (gp glob : ChessGame)
    (arr arr2 : Dir) : Bool × ChessGame :=
  let color := cm_color gp.current_turn
  let kr : Int :=
    if color = 'W' then gp.white_king.2
    else if color = 'B' then gp.black_king.2 else 0
  let kc : Int :=
    if color = 'W' then gp.white_king.1
    else if color = 'B' then gp.black_king.1 else 0
  if ¬ king_check playerC gp kr kc color = true then (false, glob)
  else cm_outer playerC cpuC gp color kr kc arr arr2 pairs64 glob

/-- The diagonal loop of `cpu_clear_path` (src/chess.c:1386-1390): check the
strictly intermediate squares, stopping as soon as either coordinate reaches
its destination value.  The fuel is an upper bound on the iteration count;
the loop condition itself ends the walk. -/
def cscanD (b : Board) (er ec rd cd : Int) : Int → Int → Nat → Bool
  | _, _, 0 => true
  | i, j, m + 1 =>
    if i ≠ er ∧ j ≠ ec then
      if b i j ≠ 0 then false else cscanD b er ec rd cd (i + rd) (j + cd) m
    else true

/-- The vertical loop of `cpu_clear_path` (src/chess.c:1399-1403). -/
def cscanV (b : Board) (er rd sc : Int) : Int → Nat → Bool
  | _, 0 => true
  | i, m + 1 =>
    if i ≠ er then
      if b i sc ≠ 0 then false else cscanV b er rd sc (i + rd) m
    else true

/-- The horizontal loop of `cpu_clear_path` (src/chess.c:1412-1416). -/
def cscanH (b : Board) (ec cd sr : Int) : Int → Nat → Bool
  | _, 0 => true
  | j, m + 1 =>
    if j ≠ ec then
      if b sr j ≠ 0 then false else cscanH b ec cd sr (j + cd) m
    else true

/-- The destination test repeated in each branch of `cpu_clear_path`: an
occupied destination is only acceptable when it holds a strictly
opposite-signed piece (the C rejects `>= 0` for a white CPU and `<= 0` for a
black one). -/
def cpu_dest_ok (cpuC : Char) (b : Board) (er ec : Int) : Bool :=
  if b er ec ≠ 0 ∧
      ((cpuC = 'W' ∧ b er ec ≥ 0) ∨ (cpuC = 'B' ∧ b er ec ≤ 0)) then false
  else true

/-- Mirrors `cpu_clear_path` (src/chess.c:1362-1424).  The direction locals
stay uninitialized in C when the corresponding delta is zero, but every
branch that reads one guarantees its delta is non-zero; the dead value is
modelled as 0. -/
def cpu_clear_path (cpuC : Char) (g : ChessGame) (sr sc er ec : Int) : Bool :=
  let rd : Int := if er - sr > 0 then 1 else if er - sr < 0 then -1 else 0
  let cd : Int := if ec - sc > 0 then 1 else if ec - sc < 0 then -1 else 0
  if sr ≠ er ∧ sc ≠ ec then
    if cscanD g.board er ec rd cd (sr + rd) (sc + cd)
        ((er - sr).natAbs + (ec - sc).natAbs) = true then
      cpu_dest_ok cpuC g.board er ec
    else false
  else if sr ≠ er then
    if cscanV g.board er rd sc (sr + rd) (er - sr).natAbs = true then
      cpu_dest_ok cpuC g.board er ec
    else false
  else if sc ≠ ec then
    if cscanH g.board ec cd sr (sc + cd) (ec - sc).natAbs = true then
      cpu_dest_ok cpuC g.board er ec
    else false
  else true

/-- The promotion value computed in the two far-rank blocks of
`cpu_legal_move` (src/chess.c:1481-1505 and 1590-1613): a random kind is
drawn into `promotion` (`rand % 4 + 2`), then unconditionally overwritten by
the CPU color sign before the kind `switch`, whose cases test for
KNIGHT..QUEEN (2..5) and therefore never match the sign.  When the CPU color
global is unset the random value survives into the switch; that dead path is
kept faithfully. -/
def cpu_promo (cpuC : Char) (rand : Nat) : Int :=
  let p0 : Int := ((rand % 4 : Nat) : Int) + 2
  let p : Int := if cpuC = 'W' then 1 else if cpuC = 'B' then -1 else p0
  if p = 2 then p * 2
  else if p = 3 then p * 3
  else if p = 4 then p * 4
  else if p = 5 then p * 5
  else p

/-- The trailing pair of own-piece destination checks that every branch of
`cpu_legal_move` applies after the guard, reading the (restored) board. -/
def cpu_own_dest (cpuC : Char) (b : Board) (er ec : Int) (r : Bool) : Bool :=
  let r2 : Bool := if cpuC = 'W' ∧ b er ec > 0 then false else r
  if cpuC = 'B' ∧ b er ec < 0 then false else r2

/-- The rook branch of `cpu_legal_move` (src/chess.c:1430-1469). -/
def cpu_rook (playerC cpuC : Char) (g : ChessGame)
    (sr sc er ec piece : Int) : Bool :=
  let b0 : Bool := if sr ≠ er ∧ sc ≠ ec then false else true
  let b1 : Bool := if ¬ cpu_clear_path cpuC g sr sc er ec = true then false
    else b0
  let b2 : Bool := if b1 = true then
    pass_guard playerC cpuC g sr sc er ec piece else false
  cpu_own_dest cpuC g.board er ec b2

/-- The knight branch of `cpu_legal_move` (src/chess.c:1653-1692). -/
def cpu_knight (playerC cpuC : Char) (g : ChessGame)
    (sr sc er ec piece : Int) : Bool :=
  let b1 : Bool :=
    if ((sr - er).natAbs = 2 ∧ (sc - ec).natAbs = 1) ∨
        ((sr - er).natAbs = 1 ∧ (sc - ec).natAbs = 2) then true
    else false
  let b2 : Bool := if b1 = true then
    pass_guard playerC cpuC g sr sc er ec piece else false
  cpu_own_dest cpuC g.board er ec b2

/-- The bishop branch of `cpu_legal_move` (src/chess.c:1695-1733). -/
def cpu_bishop (playerC cpuC : Char) (g : ChessGame)
    (sr sc er ec piece : Int) : Bool :=
  let b0 : Bool := if ¬ (sr - er).natAbs = (sc - ec).natAbs then false else true
  let b1 : Bool := if ¬ cpu_clear_path cpuC g sr sc er ec = true then false
    else b0
  let b2 : Bool := if b1 = true then
    pass_guard playerC cpuC g sr sc er ec piece else false
  cpu_own_dest cpuC g.board er ec b2

/-- The queen branch of `cpu_legal_move` (src/chess.c:1737-1777). -/
def cpu_queen (playerC cpuC : Char) (g : ChessGame)
    (sr sc er ec piece : Int) : Bool :=
  if (sr = er ∨ sc = ec) ∨ (sr - er).natAbs = (sc - ec).natAbs then
    let b1 : Bool := if ¬ cpu_clear_path cpuC g sr sc er ec = true then false
      else true
    let b2 : Bool := if b1 = true then
      pass_guard playerC cpuC g sr sc er ec piece else false
    cpu_own_dest cpuC g.board er ec b2
  else false

/-- The king branch of `cpu_legal_move` (src/chess.c:1780-1822). -/
def cpu_king (playerC cpuC : Char) (g : ChessGame)
    (sr sc er ec piece : Int) : Bool :=
  if (sr - er).natAbs ≤ 1 ∧ (sc - ec).natAbs ≤ 1 then
    let b1 : Bool :=
      if g.board er ec ≠ 0 ∧
          ((cpuC = 'W' ∧ g.board er ec > 0) ∨
           (cpuC = 'B' ∧ g.board er ec < 0)) then false
      else true
    let b2 : Bool := if b1 = true then
      pass_guard playerC cpuC g sr sc er ec piece else false
    cpu_own_dest cpuC g.board er ec b2
  else false

/-- The pawn branch of `cpu_legal_move` (src/chess.c:1472-1650): single step,
double step from the starting rank, and diagonal capture.  A far-rank step
writes `cpu_promo` to the start square on the live board before the guard,
exactly as the C does; the trailing own-piece checks then read that state. -/
def cpu_pawn (playerC cpuC : Char) (g : ChessGame)
    (sr sc er ec piece : Int) (rand : Nat) : Bool × ChessGame :=
  let direction : Int := if piece > 0 then 1 else -1
  if sc = ec ∧ er = sr + direction then
    let bC := cpu_clear_path cpuC g sr sc er ec
    let g2 : ChessGame :=
      if bC = true ∧ ((er = 7 ∧ cpuC = 'W') ∨ (er = 0 ∧ cpuC = 'B')) then
        { g with board := bset g.board sr sc (cpu_promo cpuC rand) }
      else g
    let b2 : Bool := if bC = true then
      pass_guard playerC cpuC g2 sr sc er ec piece else false
    (cpu_own_dest cpuC g2.board er ec b2, g2)
  else if sc = ec ∧ er = sr + 2 * direction ∧
      ((piece > 0 ∧ sr = 1) ∨ (piece < 0 ∧ sr = 6)) then
    let bC := cpu_clear_path cpuC g sr sc er ec
    let b2 : Bool := if bC = true then
      pass_guard playerC cpuC g sr sc er ec piece else false
    (cpu_own_dest cpuC g.board er ec b2, g)
  else if (sc - ec).natAbs = 1 ∧ er = sr + direction then
    let bC : Bool :=
      if cpuC = 'W' then
        (if g.board (sr + direction) ec ≥ 0 then false else true)
      else if cpuC = 'B' then
        (if g.board (sr + direction) ec ≤ 0 then false else true)
      else true  -- beforeCheck keeps its initial true when cpu[0] is unset
    let g2 : ChessGame :=
      if bC = true ∧ ((er = 7 ∧ cpuC = 'W') ∨ (er = 0 ∧ cpuC = 'B')) then
        { g with board := bset g.board sr sc (cpu_promo cpuC rand) }
      else g
    let b2 : Bool := if bC = true then
      pass_guard playerC cpuC g2 sr sc er ec piece else false
    (cpu_own_dest cpuC g2.board er ec b2, g2)
  else (false, g)

/-- Mirrors `cpu_legal_move` (src/chess.c:1427-1824), pairing the C return
value with the global state after the call.  `rand` stands for the bytes
`get_random_bytes` would deliver to the promotion blocks; theorem C8 proves
the result never depends on it when the CPU color is set. -/
def cpu_legal_move (playerC cpuC : Char) (g : ChessGame)
    (sr sc er ec piece : Int) (rand : Nat) : Bool × ChessGame :=
  if piece.natAbs = 4 then (cpu_rook playerC cpuC g sr sc er ec piece, g)
  else if piece.natAbs = 1 then cpu_pawn playerC cpuC g sr sc er ec piece rand
  else if piece.natAbs = 2 then (cpu_knight playerC cpuC g sr sc er ec piece, g)
  else if piece.natAbs = 3 then (cpu_bishop playerC cpuC g sr sc er ec piece, g)
  else if piece.natAbs = 5 then (cpu_queen playerC cpuC g sr sc er ec piece, g)
  else if piece.natAbs = 6 then (cpu_king playerC cpuC g sr sc er ec piece, g)
  else (true, g)

/-- Mirrors `struct cpu_move`, one entry of the candidate array. -/
structure cpu_mv where
  start_row : Int
  start_col : Int
  end_row : Int
  end_col : Int
deriving DecidableEq, Inhabited

/-- The destination loop of the `cpu_move` collection (src/chess.c:1846-1855)
for one start square, threading the live state through `cpu_legal_move` and
appending a passing pair only while the 64-entry array has room (the array
index check `counter < 64`). -/
def cpu_inner (playerC cpuC : Char) (sr sc piece : Int) :
    List (Int × Int) → ChessGame → List cpu_mv → ChessGame × List cpu_mv
  | [], g, acc => (g, acc)
  | (er, ec) :: rest, g, acc =>
    let r := cpu_legal_move playerC cpuC g sr sc er ec piece 0
    if r.1 = true ∧ acc.length < 64 then
      cpu_inner playerC cpuC sr sc piece rest r.2 (acc ++ [⟨sr, sc, er, ec⟩])
    else cpu_inner playerC cpuC sr sc piece rest r.2 acc

/-- The start-square loop of the `cpu_move` collection: the piece is read from
the live state once per start square before the destination loop. -/
def cpu_outer (playerC cpuC : Char) :
    List (Int × Int) → ChessGame → List cpu_mv → ChessGame × List cpu_mv
  | [], g, acc => (g, acc)
  | (sr, sc) :: rest, g, acc =>
    let piece := g.board sr sc
    if (cpuC = 'B' ∧ piece < 0) ∨ (cpuC = 'W' ∧ piece > 0) then
      let r := cpu_inner playerC cpuC sr sc piece pairs64 g acc
      cpu_outer playerC cpuC rest r.1 r.2
    else cpu_outer playerC cpuC rest g acc

/-- The candidate set `legal_moves[0..counter)` built by `cpu_move`
(src/chess.c:1841-1858), together with the live state after the scan. -/
def cpu_collect (playerC cpuC : Char) (g : ChessGame) :
    ChessGame × List cpu_mv :=
  cpu_outer playerC cpuC pairs64 g []

/-- The same scan without the `counter < 64` room check: every passing pair is
appended.  Used to state what the capacity limit drops. -/
def cpu_inner_all (playerC cpuC : Char) (sr sc piece : Int) :
    List (Int × Int) → ChessGame → List cpu_mv → ChessGame × List cpu_mv
  | [], g, acc => (g, acc)
  | (er, ec) :: rest, g, acc =>
    let r := cpu_legal_move playerC cpuC g sr sc er ec piece 0
    if r.1 = true then
      cpu_inner_all playerC cpuC sr sc piece rest r.2
        (acc ++ [⟨sr, sc, er, ec⟩])
    else cpu_inner_all playerC cpuC sr sc piece rest r.2 acc

/-- Outer loop of the uncapped scan. -/
def cpu_outer_all (playerC cpuC : Char) :
    List (Int × Int) → ChessGame → List cpu_mv → ChessGame × List cpu_mv
  | [], g, acc => (g, acc)
  | (sr, sc) :: rest, g, acc =>
    let piece := g.board sr sc
    if (cpuC = 'B' ∧ piece < 0) ∨ (cpuC = 'W' ∧ piece > 0) then
      let r := cpu_inner_all playerC cpuC sr sc piece pairs64 g acc
      cpu_outer_all playerC cpuC rest r.1 r.2
    else cpu_outer_all playerC cpuC rest g acc

/-- Every pair that passes `cpu_legal_move` during the scan, in scan order,
with no capacity limit. -/
def cpu_collect_all (playerC cpuC : Char) (g : ChessGame) :
    ChessGame × List cpu_mv :=
  cpu_outer_all playerC cpuC pairs64 g []

/-- Mirrors `cpu_move` (src/chess.c:1827-1871): build the candidate set, and
if it is non-empty execute the entry at `rand % counter` via `perform_move`
(the piece value re-read from the live board); otherwise do nothing. -/
def cpu_move (playerC cpuC : Char) (g : ChessGame) (rand : Nat) : ChessGame :=
  let r := cpu_collect playerC cpuC g
  if 0 < r.2.length then
    let mv := r.2.getD (rand % r.2.length) default
    perform_move playerC cpuC r.1 mv.start_row mv.start_col mv.end_row
      mv.end_col (r.1.board mv.start_row mv.start_col)
  else r.1

/-- The destination loop of the `cpu_checkmate` search (src/chess.c:1908-1918).
Unlike `is_checkmate`, the state parameter aliases the live global, so the
escape test snapshot (`temp_game = *game`) is the threaded state as it stands
after the `cpu_legal_move` call of the current iteration. -/
def cpu_cm_inner (playerC cpuC : Char) (color : Char)
    (kr kc sr sc piece : Int) :
    List (Int × Int) → ChessGame → ChessGame ⊕ (Bool × ChessGame)
  | [], glob => Sum.inl glob
  | (er, ec) :: rest, glob =>
    let r := cpu_legal_move playerC cpuC glob sr sc er ec piece 0
    if r.1 = true then
      let glob2 := perform_move playerC cpuC r.2 sr sc er ec piece
      if ¬ king_check playerC r.2 kr kc color = true then Sum.inr (false, glob2)
      else cpu_cm_inner playerC cpuC color kr kc sr sc piece rest glob2
    else cpu_cm_inner playerC cpuC color kr kc sr sc piece rest r.2

/-- The start-square loop of the `cpu_checkmate` search; the piece is read
from the threaded live state. -/
def cpu_cm_outer (playerC cpuC : Char) (color : Char) (kr kc : Int) :
    List (Int × Int) → ChessGame → Bool × ChessGame
  | [], glob => (true, glob)
  | (sr, sc) :: rest, glob =>
    let piece := glob.board sr sc
    if (color = 'W' ∧ piece > 0) ∨ (color = 'B' ∧ piece < 0) then
      match cpu_cm_inner playerC cpuC color kr kc sr sc piece pairs64 glob with
      | Sum.inl glob2 => cpu_cm_outer playerC cpuC color kr kc rest glob2
      | Sum.inr res => res
    else cpu_cm_outer playerC cpuC color kr kc rest glob

/-- Mirrors `cpu_checkmate` (src/chess.c:1874-1924); at its call site the
state parameter is the live global itself, so a single state is threaded. -/
def cpu_checkmate (playerC cpuC : Char) (glob : ChessGame) :
    Bool × ChessGame :=
  let color := cm_color glob.current_turn
  let kr : Int :=
    if color = 'W' then glob.white_king.2
    else if color = 'B' then glob.black_king.2 else 0
  let kc : Int :=
    if color = 'W' then glob.white_king.1
    else if color = 'B' then glob.black_king.1 else 0
  if ¬ king_check playerC glob kr kc color = true then (false, glob)
  else cpu_cm_outer playerC cpuC color kr kc pairs64 glob

/-! ### Derived forms of the cpu scan

`cpu_legal_move` restores every board write it makes whenever the scanned
piece really is the piece on its start square (`cpu_legal_move_snd` below), so
the live state is constant across the scan.  The following list-only forms of
the two scan loops make that explicit; `cpu_collect_eq`/`cpu_collect_all_eq`
prove them equal to the threaded loops. -/

/-- The destination loop of the `cpu_move` scan with the state held fixed. -/
def cpu_inner_list (playerC cpuC : Char) (g : ChessGame) (sr sc piece : Int) :
    List (Int × Int) → List cpu_mv → List cpu_mv
  | [], acc => acc
  | (er, ec) :: rest, acc =>
    if (cpu_legal_move playerC cpuC g sr sc er ec piece 0).1 = true ∧
        acc.length < 64 then
      cpu_inner_list playerC cpuC g sr sc piece rest (acc ++ [⟨sr, sc, er, ec⟩])
    else cpu_inner_list playerC cpuC g sr sc piece rest acc

/-- The start-square loop of the `cpu_move` scan with the state held fixed. -/
def cpu_outer_list (playerC cpuC : Char) (g : ChessGame) :
    List (Int × Int) → List cpu_mv → List cpu_mv
  | [], acc => acc
  | (sr, sc) :: rest, acc =>
    let piece := g.board sr sc
    if (cpuC = 'B' ∧ piece < 0) ∨ (cpuC = 'W' ∧ piece > 0) then
      cpu_outer_list playerC cpuC g rest
        (cpu_inner_list playerC cpuC g sr sc piece pairs64 acc)
    else cpu_outer_list playerC cpuC g rest acc

/-- Uncapped fixed-state destination loop. -/
def cpu_inner_list_all (playerC cpuC : Char) (g : ChessGame)
    (sr sc piece : Int) : List (Int × Int) → List cpu_mv → List cpu_mv
  | [], acc => acc
  | (er, ec) :: rest, acc =>
    if (cpu_legal_move playerC cpuC g sr sc er ec piece 0).1 = true then
      cpu_inner_list_all playerC cpuC g sr sc piece rest
        (acc ++ [⟨sr, sc, er, ec⟩])
    else cpu_inner_list_all playerC cpuC g sr sc piece rest acc

/-- Uncapped fixed-state start-square loop. -/
def cpu_outer_list_all (playerC cpuC : Char) (g : ChessGame) :
    List (Int × Int) → List cpu_mv → List cpu_mv
  | [], acc => acc
  | (sr, sc) :: rest, acc =>
    let piece := g.board sr sc
    if (cpuC = 'B' ∧ piece < 0) ∨ (cpuC = 'W' ∧ piece > 0) then
      cpu_outer_list_all playerC cpuC g rest
        (cpu_inner_list_all playerC cpuC g sr sc piece pairs64 acc)
    else cpu_outer_list_all playerC cpuC g rest acc

/-! ### Vocabulary for the path-clearance specification (claim C9) -/

/-- The caller contract of `clear_path`: exactly one of same-row, same-column,
equal-absolute-delta holds (a sliding move along a straight or diagonal
line).  An abbreviation so that decidability is inferred at concrete
inputs. -/
abbrev onLine (sr sc er ec : Int) : Prop :=
  (sr = er ∧ sc ≠ ec) ∨ (sc = ec ∧ sr ≠ er) ∨
  (sr ≠ er ∧ sc ≠ ec ∧ (er - sr).natAbs = (ec - sc).natAbs)

/-- The number of steps from start to end along a line. -/
def lineLen (sr sc er ec : Int) : Nat :=
  max (er - sr).natAbs (ec - sc).natAbs

/-- The unit step of a coordinate delta (0 when the coordinate does not
move). -/
def stepOf (d : Int) : Int := if d > 0 then 1 else if d < 0 then -1 else 0

/-! ### Concrete positions used by the claim theorems -/

/-- Position for C1: White to move, white king e1 in check from a black rook
a1, the escape squares free; the caches follow the `board_init` (col, row)
convention. -/
def gC1 : ChessGame :=
  { board := mkBoard [(0, 4, 6), (0, 0, -4), (7, 4, -6)]
    white_king := (4, 0), black_king := (4, 7)
    current_turn := 1, check := true }

/-- Position for C2: a white pawn on a7 about to promote while the white king
e1 is in check from the black rook a1, so the promotion move must be
rejected. -/
def gC2 : ChessGame :=
  { board := mkBoard [(6, 0, 1), (0, 4, 6), (0, 0, -4), (7, 7, -6)]
    white_king := (4, 0), black_king := (7, 7)
    current_turn := 1, check := true }

/-- Position for C3: white king on (4,4), black pawn on (3,3).  The pawn is a
rank on White's own side of the king and attacks (2,2)/(2,4), not the
king. -/
def gC3a : ChessGame :=
  { board := mkBoard [(4, 4, 6), (3, 3, -1), (7, 7, -6)]
    white_king := (4, 4), black_king := (7, 7)
    current_turn := 1, check := false }

/-- Position for C3, the mirrored case: the black pawn on (5,3) genuinely
attacks the white king on (4,4). -/
def gC3b : ChessGame :=
  { board := mkBoard [(4, 4, 6), (5, 3, -1), (7, 7, -6)]
    white_king := (4, 4), black_king := (7, 7)
    current_turn := 1, check := false }

/-- Position for C5: a white pawn on a7 free to promote, no check anywhere. -/
def gC5 : ChessGame :=
  { board := mkBoard [(6, 0, 1), (0, 4, 6), (7, 7, -6)]
    white_king := (4, 0), black_king := (7, 7)
    current_turn := 1, check := false }

/-- Position for C6: the CPU plays White with king a1, pawns f2 and h2,
queens b4 and e4, rook h6 and knight b8; Black has only the king h8.  The
White side has 65 moves that pass `cpu_legal_move`, one more than the
64-entry candidate array holds. -/
def gC6 : ChessGame :=
  { board := mkBoard [(0, 0, 6), (1, 5, 1), (1, 7, 1), (3, 1, 5), (3, 4, 5),
      (5, 7, 4), (7, 1, 2), (7, 7, -6)]
    white_king := (0, 0), black_king := (7, 7)
    current_turn := 1, check := false }

/-- Position for C7: the CPU plays White; the white king a1 is smothered by
the black queen b2 and rook a8 so that no white move passes
`cpu_legal_move`. -/
def gC7 : ChessGame :=
  { board := mkBoard [(0, 0, 6), (1, 1, -5), (7, 0, -4), (7, 7, -6)]
    white_king := (0, 0), black_king := (7, 7)
    current_turn := 1, check := true }

/-- Position for the C9 witness: a single white queen on (0,3), in the middle
of the row-0 line from (0,0) to (0,5). -/
def gC9 : ChessGame :=
  { board := mkBoard [(0, 3, 5)]
    white_king := (0, 0), black_king := (7, 7)
    current_turn := 1, check := false }

/-- Promotion directive naming a white queen. -/
def dirYWQ : Dir := ⟨'y', 'W', 'Q'⟩

/-- Promotion directive naming a white piece with the unrecognized kind
character Z. -/
def dirYWZ : Dir := ⟨'y', 'W', 'Z'⟩

/-- Promotion directive naming a white knight. -/
def dirYWN : Dir := ⟨'y', 'W', 'N'⟩

/-- The position after White plays pawn e2-e3 from the standard setup. -/
def gC4a : ChessGame := perform_move 'W' 'B' board_init 1 4 2 4
  (board_init.board 1 4)

/-- The position after Black answers with pawn a7-a6. -/
def gC4b : ChessGame := perform_move 'W' 'B' gC4a 6 0 5 0 (gC4a.board 6 0)

/-- The position after White then plays king e1-e2. -/
def gC4c : ChessGame := perform_move 'W' 'B' gC4b 0 4 1 4 (gC4b.board 0 4)

/-! ### Supporting lemmas -/

/-- Writing back the value a square already holds changes nothing. -/
theorem bset_self (b : Board) (r c : Int) : bset b r c (b r c) = b := by
  funext x y
  unfold bset
  split_ifs with h
  · rcases h with ⟨hx, hy⟩
    rw [hx, hy]
  · rfl

/-- The revert half of the self-check guard restores the pre-move board
exactly, for every board and every pair of squares (including a start equal
to its end).  This is why `spec_check` can embed the C mutate/check/revert
block as a pure read. -/
theorem move_board_revert (b : Board) (sr sc er ec : Int) :
    revert_board (move_board b sr sc er ec) sr sc er ec (b er ec) = b := by
  funext x y
  simp only [revert_board, move_board, bset]
  by_cases hxe : x = er <;> by_cases hye : y = ec <;>
    by_cases hxs : x = sr <;> by_cases hys : y = sc <;>
    subst_eqs <;> simp_all <;> (intros; subst_eqs; simp_all)

/-- The promotion value of `cpu_legal_move` for a white CPU is the white
pawn value, whatever the random draw. -/
theorem cpu_promo_W (rand : Nat) : cpu_promo 'W' rand = 1 := by
  simp only [cpu_promo, if_pos rfl]
  norm_num

/-- The promotion value of `cpu_legal_move` for a black CPU is the black
pawn value, whatever the random draw. -/
theorem cpu_promo_B (rand : Nat) : cpu_promo 'B' rand = -1 := by
  have hBW : ('B' : Char) = 'W' ↔ False := by decide
  simp only [cpu_promo, hBW, if_false, if_pos rfl]
  norm_num

/-- With the CPU color set, the promotion value of `cpu_legal_move` is the
base pawn value of that color, for any random draw. -/
theorem cpu_promo_const (cpuC : Char) (hc : cpuC = 'W' ∨ cpuC = 'B')
    (rand : Nat) : cpu_promo cpuC rand = if cpuC = 'W' then 1 else -1 := by
  rcases hc with h | h <;> subst h
  · rw [cpu_promo_W, if_pos rfl]
  · rw [cpu_promo_B, if_neg (by decide)]

set_option maxHeartbeats 2000000 in
/-- When the scanned piece is the pawn actually sitting on the start square
and its sign matches the CPU color, the promotion write of `cpu_pawn` stores
the very value it overwrites, so the returned state is the input state. -/
theorem cpu_pawn_snd (playerC cpuC : Char) (g : ChessGame)
    (sr sc er ec piece : Int) (rand : Nat)
    (hb : g.board sr sc = piece) (hp : piece.natAbs = 1)
    (hc : (cpuC = 'W' ∧ 0 < piece) ∨ (cpuC = 'B' ∧ piece < 0)) :
    (cpu_pawn playerC cpuC g sr sc er ec piece rand).2 = g := by
  have hpromo : cpu_promo cpuC rand = piece := by
    rcases hc with ⟨h, hpos⟩ | ⟨h, hneg⟩ <;> subst h
    · rw [cpu_promo_W]
      omega
    · rw [cpu_promo_B]
      omega
  have hg2 : ({ g with board := bset g.board sr sc (cpu_promo cpuC rand) } :
      ChessGame) = g := by
    rw [hpromo, ← hb, bset_self]
  simp only [cpu_pawn]
  split_ifs <;> simp [hg2]

/-- `cpu_legal_move` returns its input state whenever the scanned piece is the
piece on the start square and its sign matches the CPU color: the self-check
guard restores its writes and the pawn promotion write is the identity. -/
theorem cpu_legal_move_snd (playerC cpuC : Char) (g : ChessGame)
    (sr sc er ec piece : Int) (rand : Nat)
    (hb : g.board sr sc = piece)
    (hc : (cpuC = 'W' ∧ 0 < piece) ∨ (cpuC = 'B' ∧ piece < 0)) :
    (cpu_legal_move playerC cpuC g sr sc er ec piece rand).2 = g := by
  unfold cpu_legal_move
  split_ifs with h1 h2 h3 h4 h5 h6
  · rfl
  · exact cpu_pawn_snd playerC cpuC g sr sc er ec piece rand hb h2 hc
  all_goals rfl

/-- The destination loop of the scan keeps the state fixed and builds the
list of the fixed-state loop. -/
theorem cpu_inner_eq (playerC cpuC : Char) (g : ChessGame) (sr sc piece : Int)
    (h : ∀ er ec : Int,
      (cpu_legal_move playerC cpuC g sr sc er ec piece 0).2 = g) :
    ∀ (l : List (Int × Int)) (acc : List cpu_mv),
      cpu_inner playerC cpuC sr sc piece l g acc =
        (g, cpu_inner_list playerC cpuC g sr sc piece l acc) := by
  intro l
  induction l with
  | nil => intro acc; rfl
  | cons p rest ih =>
    intro acc
    obtain ⟨er, ec⟩ := p
    simp only [cpu_inner, cpu_inner_list]
    rw [h er ec]
    split_ifs with hcond
    · exact ih _
    · exact ih _

/-- The start-square loop of the scan keeps the state fixed and builds the
list of the fixed-state loop; the color filter supplies the sign hypothesis
of `cpu_legal_move_snd`. -/
theorem cpu_outer_eq (playerC cpuC : Char) (g : ChessGame) :
    ∀ (l : List (Int × Int)) (acc : List cpu_mv),
      cpu_outer playerC cpuC l g acc =
        (g, cpu_outer_list playerC cpuC g l acc) := by
  intro l
  induction l with
  | nil => intro acc; rfl
  | cons p rest ih =>
    intro acc
    obtain ⟨sr, sc⟩ := p
    simp only [cpu_outer, cpu_outer_list]
    split_ifs with hcond
    · have hsnd : ∀ er ec : Int,
          (cpu_legal_move playerC cpuC g sr sc er ec (g.board sr sc) 0).2
            = g := by
        intro er ec
        refine cpu_legal_move_snd playerC cpuC g sr sc er ec _ 0 rfl ?_
        rcases hcond with ⟨hB, hneg⟩ | ⟨hW, hpos⟩
        · exact Or.inr ⟨hB, hneg⟩
        · exact Or.inl ⟨hW, hpos⟩
      rw [cpu_inner_eq playerC cpuC g sr sc (g.board sr sc) hsnd pairs64 acc]
      exact ih _
    · exact ih _

/-- The candidate-set scan of `cpu_move` leaves the live state unchanged and
its list is that of the fixed-state loops. -/
theorem cpu_collect_eq (playerC cpuC : Char) (g : ChessGame) :
    cpu_collect playerC cpuC g =
      (g, cpu_outer_list playerC cpuC g pairs64 []) :=
  cpu_outer_eq playerC cpuC g pairs64 []

/-- Fixed-state analogue of `cpu_inner_eq` for the uncapped scan. -/
theorem cpu_inner_all_eq (playerC cpuC : Char) (g : ChessGame)
    (sr sc piece : Int)
    (h : ∀ er ec : Int,
      (cpu_legal_move playerC cpuC g sr sc er ec piece 0).2 = g) :
    ∀ (l : List (Int × Int)) (acc : List cpu_mv),
      cpu_inner_all playerC cpuC sr sc piece l g acc =
        (g, cpu_inner_list_all playerC cpuC g sr sc piece l acc) := by
  intro l
  induction l with
  | nil => intro acc; rfl
  | cons p rest ih =>
    intro acc
    obtain ⟨er, ec⟩ := p
    simp only [cpu_inner_all, cpu_inner_list_all]
    rw [h er ec]
    split_ifs with hcond
    · exact ih _
    · exact ih _

/-- Fixed-state analogue of `cpu_outer_eq` for the uncapped scan. -/
theorem cpu_outer_all_eq (playerC cpuC : Char) (g : ChessGame) :
    ∀ (l : List (Int × Int)) (acc : List cpu_mv),
      cpu_outer_all playerC cpuC l g acc =
        (g, cpu_outer_list_all playerC cpuC g l acc) := by
  intro l
  induction l with
  | nil => intro acc; rfl
  | cons p rest ih =>
    intro acc
    obtain ⟨sr, sc⟩ := p
    simp only [cpu_outer_all, cpu_outer_list_all]
    split_ifs with hcond
    · have hsnd : ∀ er ec : Int,
          (cpu_legal_move playerC cpuC g sr sc er ec (g.board sr sc) 0).2
            = g := by
        intro er ec
        refine cpu_legal_move_snd playerC cpuC g sr sc er ec _ 0 rfl ?_
        rcases hcond with ⟨hB, hneg⟩ | ⟨hW, hpos⟩
        · exact Or.inr ⟨hB, hneg⟩
        · exact Or.inl ⟨hW, hpos⟩
      rw [cpu_inner_all_eq playerC cpuC g sr sc (g.board sr sc) hsnd
        pairs64 acc]
      exact ih _
    · exact ih _

/-- The uncapped candidate-set scan also leaves the live state unchanged. -/
theorem cpu_collect_all_eq (playerC cpuC : Char) (g : ChessGame) :
    cpu_collect_all playerC cpuC g =
      (g, cpu_outer_list_all playerC cpuC g pairs64 []) :=
  cpu_outer_all_eq playerC cpuC g pairs64 []

/-- The capped destination loop computes the 64-prefix of the uncapped one
(same threaded state). -/
theorem cpu_inner_take (playerC cpuC : Char) (sr sc piece : Int) :
    ∀ (l : List (Int × Int)) (g : ChessGame) (acc : List cpu_mv),
      cpu_inner playerC cpuC sr sc piece l g (acc.take 64) =
        ((cpu_inner_all playerC cpuC sr sc piece l g acc).1,
         (cpu_inner_all playerC cpuC sr sc piece l g acc).2.take 64) := by
  intro l
  induction l with
  | nil => intro g acc; rfl
  | cons p rest ih =>
    intro g acc
    obtain ⟨er, ec⟩ := p
    simp only [cpu_inner, cpu_inner_all]
    by_cases h1 :
        (cpu_legal_move playerC cpuC g sr sc er ec piece 0).1 = true
    · rw [if_pos h1]
      by_cases h2 : acc.length < 64
      · have hlen : (acc.take 64).length < 64 := by
          simp only [List.length_take]
          omega
        rw [if_pos ⟨h1, hlen⟩]
        have h3 : acc.take 64 = acc := List.take_of_length_le (by omega)
        have h4 : acc ++ [(⟨sr, sc, er, ec⟩ : cpu_mv)] =
            (acc ++ [(⟨sr, sc, er, ec⟩ : cpu_mv)]).take 64 :=
          (List.take_of_length_le (by simp; omega)).symm
        rw [h3]
        rw [h4]
        rw [← h4]
        nth_rewrite 1 [h4]
        exact ih _ _
      · have hlen : ¬ ((cpu_legal_move playerC cpuC g sr sc er ec
            piece 0).1 = true ∧ (acc.take 64).length < 64) := by
          rintro ⟨-, hl⟩
          rw [List.length_take] at hl
          omega
        rw [if_neg hlen]
        have h5 : acc.take 64 =
            (acc ++ [(⟨sr, sc, er, ec⟩ : cpu_mv)]).take 64 :=
          (List.take_append_of_le_length (by omega)).symm
        rw [h5]
        exact ih _ _
    · rw [if_neg h1, if_neg (fun hand => h1 hand.1)]
      exact ih _ _

/-- The capped start-square loop computes the 64-prefix of the uncapped
one. -/
theorem cpu_outer_take (playerC cpuC : Char) :
    ∀ (l : List (Int × Int)) (g : ChessGame) (acc : List cpu_mv),
      cpu_outer playerC cpuC l g (acc.take 64) =
        ((cpu_outer_all playerC cpuC l g acc).1,
         (cpu_outer_all playerC cpuC l g acc).2.take 64) := by
  intro l
  induction l with
  | nil => intro g acc; rfl
  | cons p rest ih =>
    intro g acc
    obtain ⟨sr, sc⟩ := p
    simp only [cpu_outer, cpu_outer_all]
    split_ifs with hcond
    · rw [cpu_inner_take playerC cpuC sr sc (g.board sr sc) pairs64 g acc]
      exact ih _ _
    · exact ih _ _

theorem stepOf_mul (d : Int) (hd : d ≠ 0) :
    d = ((d.natAbs : Int)) * stepOf d := by
  unfold stepOf
  split_ifs <;> omega

theorem stepOf_ne_zero (d : Int) (hd : d ≠ 0) : stepOf d ≠ 0 := by
  unfold stepOf
  split_ifs <;> omega

theorem stepOf_zero : stepOf 0 = 0 := rfl

theorem dirsign_eq (d : Int) (hd : d ≠ 0) :
    (if d > 0 then (1 : Int) else -1) = stepOf d := by
  unfold stepOf
  split_ifs <;> omega

theorem dist1_iff (v : Int) (c : Char) :
    ((if v ≠ 0 ∧ c ≠ 'x' then false else true) = true) ↔ (v = 0 ∨ c = 'x') := by
  split_ifs with h <;> simp_all <;> tauto

theorem scanPath_iff (b : Board) (x : Bool) (rd cd : Int)
    (hrdcd : rd ≠ 0 ∨ cd ≠ 0) :
    ∀ (n : Nat) (i j er ec : Int),
      er = i + (n : Int) * rd → ec = j + (n : Int) * cd →
      (scanPath b x er ec rd cd i j (n + 1) = true ↔
        ((∀ k : Nat, k < n →
            b (i + (k : Int) * rd) (j + (k : Int) * cd) = 0) ∧
         (b er ec = 0 ∨ x = true))) := by
  intro n
  induction n with
  | zero =>
    intro i j er ec her hec
    simp only [Nat.cast_zero, zero_mul, add_zero] at her hec
    rw [her, hec]
    simp only [scanPath]
    by_cases hb : b i j = 0
    · simp [hb]
    · simp [hb]
  | succ m ih =>
    intro i j er ec her hec
    have hne : ¬ (i = er ∧ j = ec) := by
      rintro ⟨h1, h2⟩
      rcases hrdcd with h | h
      · have hmul : ((m + 1 : Nat) : Int) * rd ≠ 0 :=
          mul_ne_zero (by exact_mod_cast Nat.succ_ne_zero m) h
        rw [her] at h1
        omega
      · have hmul : ((m + 1 : Nat) : Int) * cd ≠ 0 :=
          mul_ne_zero (by exact_mod_cast Nat.succ_ne_zero m) h
        rw [hec] at h2
        omega
    rw [scanPath]
    by_cases hb : b i j = 0
    · rw [if_neg (not_not_intro hb)]
      have her2 : er = (i + rd) + (m : Int) * rd := by
        rw [her]; push_cast; ring
      have hec2 : ec = (j + cd) + (m : Int) * cd := by
        rw [hec]; push_cast; ring
      rw [ih (i + rd) (j + cd) er ec her2 hec2]
      constructor
      · rintro ⟨hall, hdest⟩
        refine ⟨?_, hdest⟩
        intro k hk
        match k with
        | 0 => simpa using hb
        | k' + 1 =>
          have hx := hall k' (by omega)
          have harr : i + ((k' + 1 : Nat) : Int) * rd =
              (i + rd) + (k' : Int) * rd := by push_cast; ring
          have harc : j + ((k' + 1 : Nat) : Int) * cd =
              (j + cd) + (k' : Int) * cd := by push_cast; ring
          rw [harr, harc]
          exact hx
      · rintro ⟨hall, hdest⟩
        refine ⟨?_, hdest⟩
        intro k hk
        have hx := hall (k + 1) (by omega)
        have harr : i + ((k + 1 : Nat) : Int) * rd =
            (i + rd) + (k : Int) * rd := by push_cast; ring
        have harc : j + ((k + 1 : Nat) : Int) * cd =
            (j + cd) + (k : Int) * cd := by push_cast; ring
        rw [harr, harc] at hx
        exact hx
    · rw [if_pos hb, if_neg hne]
      refine ⟨fun h => absurd h Bool.false_ne_true, ?_⟩
      rintro ⟨hall, -⟩
      exact absurd (by simpa using hall 0 (Nat.succ_pos m)) hb

theorem scan_from_iff (b : Board) (x : Bool) (dr dc sr sc er ec i j : Int)
    (n : Nat) (hn : 1 ≤ n) (hi : i = sr + dr) (hj : j = sc + dc)
    (hr : er - sr = (n : Int) * dr) (hc : ec - sc = (n : Int) * dc)
    (hd : dr ≠ 0 ∨ dc ≠ 0) :
    (scanPath b x er ec dr dc i j n = true ↔
      ((∀ k : Nat, 1 ≤ k → k < n →
          b (sr + (k : Int) * dr) (sc + (k : Int) * dc) = 0) ∧
       (b er ec = 0 ∨ x = true))) := by
  have hsplit : n = (n - 1) + 1 := by omega
  have hcast : ((n - 1 : Nat) : Int) = (n : Int) - 1 := by
    push_cast [hn]
    ring
  rw [hsplit, hi, hj]
  rw [scanPath_iff b x dr dc hd (n - 1) (sr + dr) (sc + dc) er ec
    (by rw [hcast]; linarith [hr]) (by rw [hcast]; linarith [hc])]
  constructor
  · rintro ⟨hall, hdest⟩
    refine ⟨?_, hdest⟩
    intro k hk1 hk2
    have hx := hall (k - 1) (by omega)
    have hcast2 : ((k - 1 : Nat) : Int) = (k : Int) - 1 := by
      push_cast [hk1]
      ring
    have harr : (sr + dr) + ((k - 1 : Nat) : Int) * dr =
        sr + (k : Int) * dr := by rw [hcast2]; ring
    have harc : (sc + dc) + ((k - 1 : Nat) : Int) * dc =
        sc + (k : Int) * dc := by rw [hcast2]; ring
    rw [harr, harc] at hx
    exact hx
  · rintro ⟨hall, hdest⟩
    refine ⟨?_, hdest⟩
    intro k hk
    have hx := hall (k + 1) (by omega) (by omega)
    have harr : sr + ((k + 1 : Nat) : Int) * dr =
        (sr + dr) + (k : Int) * dr := by push_cast; ring
    have harc : sc + ((k + 1 : Nat) : Int) * dc =
        (sc + dc) + (k : Int) * dc := by push_cast; ring
    rw [harr, harc] at hx
    exact hx

theorem bset_get_self (b : Board) (r c v : Int) : bset b r c v r c = v := by
  simp [bset]

theorem legal_move_pawn (playerC : Char) (g : ChessGame)
    (sr sc er ec piece : Int) (arr arr2 : Dir) (hp : piece.natAbs = 1) :
    legal_move playerC g sr sc er ec piece arr arr2 =
      lm_pawn playerC g sr sc er ec piece arr arr2 := by
  unfold legal_move
  rw [if_neg (by omega), if_pos hp]

/-! ### Claim theorems -/

/-- C10: the king_row and king_col parameters of king_check are dead: the
position is always re-read from the state's king cache, so any two coordinate
pairs give the same verdict, for every state, player color and tested
color. -/
theorem c10_king_check_ignores_coords (playerC : Char) (g : ChessGame)
    (r1 c1 r2 c2 : Int) (color : Char) :
    king_check playerC g r1 c1 color = king_check playerC g r2 c2 color := rfl

/-- C1 (code bug evidence): running is_checkmate on a live state equal to the
copy it is handed does not leave that state unchanged.  In gC1 the white king
is in check from the rook with an escape available; the scan executes the
escape move on the live state (square (0,3) acquires the king, the turn
flips) and still answers checkmate, because the escape test re-reads the
untouched copy. -/
theorem c1_checkmate_scan_mutates_state :
    (is_checkmate 'W' 'B' gC1 gC1 noDir noDir).1 = true ∧
    (is_checkmate 'W' 'B' gC1 gC1 noDir noDir).2.board 0 3 = 6 ∧
    gC1.board 0 3 = 0 ∧
    (is_checkmate 'W' 'B' gC1 gC1 noDir noDir).2.current_turn = -1 ∧
    gC1.current_turn = 1 := by decide

/-- C2 (code bug evidence): a rejected move can mutate the board.  In gC2 the
promotion directive is consumed and writes a white queen (5) to the start
square a7 before the self-check guard runs; the guard then rejects the move
(the white king stays in check), but the write survives: legal_move returns
false with the a7 square changed from pawn (1) to queen (5). -/
theorem c2_rejected_promotion_mutates_board :
    (legal_move 'W' gC2 6 0 7 0 1 dirYWQ noDir).1 = false ∧
    (legal_move 'W' gC2 6 0 7 0 1 dirYWQ noDir).2.board 6 0 = 5 ∧
    gC2.board 6 0 = 1 := by decide

/-- C3 (code bug evidence): king_check derives the pawn-attack direction from
the human player's color, not from the color of the tested king.  With
player W, a white king on (4,4) is reported attacked by a black pawn on
(3,3) (which does not attack it) and not attacked by a black pawn on (5,3)
(which does); flipping only the player global to B flips the latter verdict. -/
theorem c3_pawn_attack_direction_from_player :
    king_check 'W' gC3a 4 4 'W' = true ∧
    king_check 'W' gC3b 4 4 'W' = false ∧
    king_check 'B' gC3b 4 4 'W' = true := by decide

/-- C4 (code bug evidence): after White plays e2-e3, Black a7-a6 and White
king e1-e2 -- each move accepted by the engine's validators -- perform_move
stores the white king cache as (1,4), the (row, col) pair of the destination,
while board_init stored the cache in (col, row) order ((4,0) for the king on
board[0][4]).  Under the init convention the cache should read (4,1); reading
the cache the way king_check does now points at the empty square
board[4][1], not the king on board[1][4]. -/
theorem c4_king_cache_convention_broken :
    (legal_move 'W' board_init 1 4 2 4 1 noDir noDir).1 = true ∧
    (cpu_legal_move 'W' 'B' gC4a 6 0 5 0 (-1) 0).1 = true ∧
    (legal_move 'W' gC4b 0 4 1 4 6 noDir noDir).1 = true ∧
    gC4c.white_king = (1, 4) ∧
    gC4c.board 1 4 = 6 ∧
    gC4c.board 4 1 = 0 ∧
    board_init.white_king = (4, 0) ∧
    board_init.board 0 4 = 6 := by decide

/-- C5 (counterexample): the far-rank promotion filter only excludes the kind
characters P and K, so the unrecognized kind Z is accepted, and the promotion
switch then falls to its default and leaves the base pawn value: the
completed move puts a pawn (1) on the far rank. -/
theorem c5_counterexample :
    (legal_move 'W' gC5 6 0 7 0 1 dirYWZ noDir).1 = true ∧
    (perform_move 'W' 'B' (legal_move 'W' gC5 6 0 7 0 1 dirYWZ noDir).2 6 0 7 0
      ((legal_move 'W' gC5 6 0 7 0 1 dirYWZ noDir).2.board 6 0)).board 7 0
      = 1 := by decide

set_option maxRecDepth 20000 in
set_option maxHeartbeats 8000000 in
/-- C6 (counterexample): the pair (7,1) to (6,3) is a knight move of the
CPU's color that passes cpu_legal_move on position gC6, yet it is not in the
candidate set the draw is made from: gC6 has 65 passing pairs and the scan
stops appending once its 64-entry array is full. -/
theorem c6_counterexample :
    gC6.board 7 1 = 2 ∧
    (cpu_legal_move 'B' 'W' gC6 7 1 6 3 2 0).1 = true ∧
    ¬ (⟨7, 1, 6, 3⟩ : cpu_mv) ∈ (cpu_collect 'B' 'W' gC6).2 := by
  refine ⟨by decide, by decide, ?_⟩
  rw [cpu_collect_eq]
  decide

/-- C6 (amended): the candidate set cpu_move draws from is the prefix, up to
the 64-entry capacity of the move array, of the scan-ordered list of all
pairs passing cpu_legal_move; every passing pair beyond that capacity is
omitted. -/
theorem c6_candidate_set_is_64_prefix (playerC cpuC : Char) (g : ChessGame) :
    (cpu_collect playerC cpuC g).2 =
      ((cpu_collect_all playerC cpuC g).2).take 64 :=
  congrArg Prod.snd (cpu_outer_take playerC cpuC pairs64 g [])

/-- C7: if the candidate set the scan builds is empty, cpu_move performs no
move: the returned state (board, king caches, turn and check flag) is the
input state. -/
theorem c7_empty_candidate_set_no_move (playerC cpuC : Char) (g : ChessGame)
    (rand : Nat) (hempty : (cpu_collect playerC cpuC g).2 = []) :
    cpu_move playerC cpuC g rand = g := by
  have h1 : (cpu_collect playerC cpuC g).1 = g := by rw [cpu_collect_eq]
  simp [cpu_move, hempty, h1]

set_option maxRecDepth 20000 in
set_option maxHeartbeats 8000000 in
/-- Witness for C7 at the smothered position gC7: the candidate set is empty
and cpu_move returns the state unchanged. -/
theorem c7_witness :
    (cpu_collect 'B' 'W' gC7).2 = [] ∧ cpu_move 'B' 'W' gC7 0 = gC7 := by
  have he : (cpu_collect 'B' 'W' gC7).2 = [] := by
    rw [cpu_collect_eq]
    decide
  exact ⟨he, c7_empty_candidate_set_no_move 'B' 'W' gC7 0 he⟩

/-- C8: with the CPU color set, the promotion value written by cpu_legal_move
is always the base pawn value of that color (the random draw is overwritten
by the color sign before the kind switch, so the knight, bishop, rook and
queen cases never match), and consequently the whole verdict and state are
independent of the random draw. -/
theorem c8_cpu_promotion_always_base_pawn (playerC cpuC : Char)
    (g : ChessGame) (sr sc er ec piece : Int) (rand rand2 : Nat)
    (hc : cpuC = 'W' ∨ cpuC = 'B') :
    cpu_promo cpuC rand = (if cpuC = 'W' then (1 : Int) else -1) ∧
    cpu_legal_move playerC cpuC g sr sc er ec piece rand =
      cpu_legal_move playerC cpuC g sr sc er ec piece rand2 := by
  refine ⟨cpu_promo_const cpuC hc rand, ?_⟩
  unfold cpu_legal_move cpu_pawn
  rw [cpu_promo_const cpuC hc rand, cpu_promo_const cpuC hc rand2]

/-- Witness for C8: a concrete white-CPU pawn move with two different random
draws. -/
theorem c8_witness :
    cpu_promo 'W' 3 = (if ('W' : Char) = 'W' then (1 : Int) else -1) ∧
    cpu_legal_move 'B' 'W' gC6 1 7 2 7 1 3 =
      cpu_legal_move 'B' 'W' gC6 1 7 2 7 1 0 :=
  c8_cpu_promotion_always_base_pawn 'B' 'W' gC6 1 7 2 7 1 3 0 (Or.inl rfl)

/-- C9: for every board, every start and end square on a straight or diagonal
line, and every directive: clear_path succeeds exactly when every strictly
intermediate square of the line is empty and the destination is either empty
or covered by a capture-assert directive.  Distance-1 moves have no
intermediate squares, so only the destination rule applies to them. -/
theorem c9_clear_path_follows_spec (g : ChessGame) (arr : Dir)
    (sr sc er ec : Int) (h : onLine sr sc er ec) :
    clear_path g arr sr sc er ec = true ↔
      ((∀ k : Nat, 1 ≤ k → k < lineLen sr sc er ec →
          g.board (sr + (k : Int) * stepOf (er - sr))
            (sc + (k : Int) * stepOf (ec - sc)) = 0) ∧
       (g.board er ec = 0 ∨ arr.c0 = 'x')) := by
  rcases h with ⟨h1, h2⟩ | ⟨h1, h2⟩ | ⟨h1, h2, h3⟩
  · -- same row: the horizontal branch
    have hll : lineLen sr sc er ec = (ec - sc).natAbs := by
      have he : er - sr = 0 := by omega
      rw [lineLen, he]
      simp
    have hs0 : stepOf (er - sr) = 0 := by
      have he : er - sr = 0 := by omega
      rw [he, stepOf_zero]
    simp only [clear_path]
    rw [if_neg (by tauto : ¬ (sr ≠ er ∧ sc ≠ ec)),
      if_neg (by omega : ¬ sr ≠ er), if_pos h2]
    by_cases hn1 : (ec - sc).natAbs = 1
    · rw [if_pos hn1, dist1_iff]
      constructor
      · intro hd
        exact ⟨fun k hk1 hk2 => absurd hk2 (by omega), hd⟩
      · rintro ⟨-, hd⟩
        exact hd
    · have hne0 : ec - sc ≠ 0 := by omega
      rw [if_neg hn1, if_pos (by omega : ec - sc > 1 ∨ ec - sc < -1)]
      rw [dirsign_eq _ hne0]
      rw [scan_from_iff g.board (decide (arr.c0 = 'x')) 0 (stepOf (ec - sc))
        sr sc er ec sr (sc + stepOf (ec - sc)) (ec - sc).natAbs
        (by omega) (by ring) rfl (by simp; omega) (stepOf_mul _ hne0)
        (Or.inr (stepOf_ne_zero _ hne0))]
      rw [hll, hs0]
      simp only [decide_eq_true_eq]
  · -- same column: the vertical branch
    have hll : lineLen sr sc er ec = (er - sr).natAbs := by
      have he : ec - sc = 0 := by omega
      rw [lineLen, he]
      simp
    have hs0 : stepOf (ec - sc) = 0 := by
      have he : ec - sc = 0 := by omega
      rw [he, stepOf_zero]
    simp only [clear_path]
    rw [if_neg (by tauto : ¬ (sr ≠ er ∧ sc ≠ ec)), if_pos h2]
    by_cases hn1 : (er - sr).natAbs = 1
    · rw [if_pos hn1, dist1_iff]
      constructor
      · intro hd
        exact ⟨fun k hk1 hk2 => absurd hk2 (by omega), hd⟩
      · rintro ⟨-, hd⟩
        exact hd
    · have hne0 : er - sr ≠ 0 := by omega
      rw [if_neg hn1, if_pos (by omega : er - sr > 1 ∨ er - sr < -1)]
      rw [dirsign_eq _ hne0]
      rw [scan_from_iff g.board (decide (arr.c0 = 'x')) (stepOf (er - sr)) 0
        sr sc er ec (sr + stepOf (er - sr)) sc (er - sr).natAbs
        (by omega) rfl (by ring) (stepOf_mul _ hne0) (by simp; omega)
        (Or.inl (stepOf_ne_zero _ hne0))]
      rw [hll, hs0]
      simp only [decide_eq_true_eq]
  · -- the diagonal branch
    have hrne : er - sr ≠ 0 := by omega
    have hcne : ec - sc ≠ 0 := by omega
    have hll : lineLen sr sc er ec = (er - sr).natAbs := by
      rw [lineLen, ← h3, max_self]
    simp only [clear_path]
    rw [if_pos ⟨h1, h2⟩]
    by_cases hn1 : (er - sr).natAbs = 1
    · rw [if_pos ⟨hn1, h3 ▸ hn1⟩, dist1_iff]
      constructor
      · intro hd
        exact ⟨fun k hk1 hk2 => absurd hk2 (by omega), hd⟩
      · rintro ⟨-, hd⟩
        exact hd
    · rw [if_neg (fun hand => hn1 hand.1)]
      rw [← h3, min_self]
      rw [dirsign_eq _ hrne, dirsign_eq _ hcne]
      rw [scan_from_iff g.board (decide (arr.c0 = 'x')) (stepOf (er - sr))
        (stepOf (ec - sc)) sr sc er ec (sr + stepOf (er - sr))
        (sc + stepOf (ec - sc)) (er - sr).natAbs
        (by omega) rfl rfl (stepOf_mul _ hrne) (by rw [h3]; exact stepOf_mul _ hcne)
        (Or.inl (stepOf_ne_zero _ hrne))]
      rw [hll]
      simp only [decide_eq_true_eq]

set_option maxHeartbeats 3200000 in
/-- C5 (amended): for a far-rank pawn move carrying a promotion-shaped
directive d (the primary directive for a forward step, the secondary one for
a diagonal capture), legal_move accepts only when the directive's kind
character is neither P nor K and its color character is the mover's; an
accepted move leaves promoVal on the start square, i.e. the named piece for
N, B, R, Q and the base pawn value for any other accepted kind character. -/
theorem c5_amended_far_rank_promotion (playerC : Char) (g : ChessGame)
    (sr sc er ec piece : Int) (arr arr2 d : Dir)
    (hcol : (playerC = 'W' ∧ piece = 1 ∧ er = 7) ∨
            (playerC = 'B' ∧ piece = -1 ∧ er = 0))
    (hshape : (sc = ec ∧ er = sr + piece ∧ arr.c0 = 'y' ∧ d = arr) ∨
              ((sc - ec).natAbs = 1 ∧ er = sr + piece ∧ arr.c0 = 'x' ∧
               arr2.c0 = 'y' ∧ d = arr2)) :
    ((d.c2 = 'P' ∨ d.c2 = 'K' ∨ d.c1 ≠ playerC) →
      (legal_move playerC g sr sc er ec piece arr arr2).1 = false) ∧
    ((legal_move playerC g sr sc er ec piece arr arr2).1 = true →
      (legal_move playerC g sr sc er ec piece arr arr2).2.board sr sc =
        promoVal playerC d.c2) := by
  rw [legal_move_pawn playerC g sr sc er ec piece arr arr2
    (by rcases hcol with ⟨-, hp, -⟩ | ⟨-, hp, -⟩ <;> omega)]
  rcases hcol with ⟨hpc, hp, he⟩ | ⟨hpc, hp, he⟩ <;> subst hpc <;> subst hp <;>
    subst he <;>
    rcases hshape with ⟨hsc, her, hy, hd⟩ | ⟨hab, her, hx, hy2, hd⟩ <;>
    subst hd
  · -- forward step, White
    subst hsc
    have hdir : (if (1:Int) > 0 then (1:Int) else -1) = 1 := by norm_num
    have h70 : ((7:Int) = 0) = False := by norm_num
    have h77 : ((7:Int) ≠ 7) = False := by norm_num
    have hWB : (('W':Char) = 'B') = False := by decide
    have heqT : ((7:Int) = sr + 1) = True := eq_true her
    have hyT : (d.c0 = 'y') = True := eq_true hy
    simp only [lm_pawn, hdir, h70, h77, hWB, hyT, heqT, eq_self_iff_true,
      ne_eq, true_and, and_true, false_and, and_false, or_false, false_or,
      if_true, ite_true, not_true, not_false_eq_true, ite_false, if_false]
    split_ifs with hA hB hC
    · obtain ⟨hleg, hP, hK, hC1⟩ := hA
      constructor
      · intro hbad
        rcases hbad with hb | hb | hb <;> simp_all
      · intro hacc
        simp only [bset_get_self]
        rw [hC1]
    · exact ⟨fun _ => rfl, fun habs => absurd habs (by simp)⟩
    · exfalso
      tauto
    · exact ⟨fun _ => rfl, fun habs => absurd habs (by simp)⟩
  · -- diagonal capture, White
    have hdir : (if (1:Int) > 0 then (1:Int) else -1) = 1 := by norm_num
    have h70 : ((7:Int) = 0) = False := by norm_num
    have h77 : ((7:Int) ≠ 7) = False := by norm_num
    have hWB : (('W':Char) = 'B') = False := by decide
    have heqT : ((7:Int) = sr + 1) = True := eq_true her
    have hscne : (sc = ec) = False := by
      simp only [eq_iff_iff, iff_false]
      omega
    have habT : ((sc - ec).natAbs = 1) = True := eq_true hab
    have hxT : (arr.c0 = 'x') = True := eq_true hx
    have hy2T : (d.c0 = 'y') = True := eq_true hy2
    simp only [lm_pawn, hdir, h70, h77, hWB, hxT, hy2T, heqT, hscne, habT,
      eq_self_iff_true, ne_eq, true_and, and_true, false_and, and_false,
      or_false, false_or, if_true, ite_true, not_true, not_false_eq_true,
      ite_false, if_false]
    split_ifs with hA hB hC
    · obtain ⟨hleg, hP, hK, hC1⟩ := hA
      constructor
      · intro hbad
        rcases hbad with hb | hb | hb <;> simp_all
      · intro hacc
        simp only [bset_get_self]
        rw [hC1]
    · exact ⟨fun _ => rfl, fun habs => absurd habs (by simp)⟩
    · exfalso
      tauto
    · exact ⟨fun _ => rfl, fun habs => absurd habs (by simp)⟩
  · -- forward step, Black
    subst hsc
    have hdir : (if (-1:Int) > 0 then (1:Int) else -1) = -1 := by norm_num
    have h07 : ((0:Int) = 7) = False := by norm_num
    have h00 : ((0:Int) ≠ 0) = False := by norm_num
    have hBW : (('B':Char) = 'W') = False := by decide
    have heqT : ((0:Int) = sr + -1) = True := eq_true her
    have hyT : (d.c0 = 'y') = True := eq_true hy
    simp only [lm_pawn, hdir, h07, h00, hBW, hyT, heqT, eq_self_iff_true,
      ne_eq, true_and, and_true, false_and, and_false, or_false, false_or,
      if_true, ite_true, not_true, not_false_eq_true, ite_false, if_false]
    split_ifs with hA hB hC
    · obtain ⟨hleg, hP, hK, hC1⟩ := hA
      constructor
      · intro hbad
        rcases hbad with hb | hb | hb <;> simp_all
      · intro hacc
        simp only [bset_get_self]
        rw [hC1]
    · exact ⟨fun _ => rfl, fun habs => absurd habs (by simp)⟩
    · exfalso
      tauto
    · exact ⟨fun _ => rfl, fun habs => absurd habs (by simp)⟩
  · -- diagonal capture, Black
    have hdir : (if (-1:Int) > 0 then (1:Int) else -1) = -1 := by norm_num
    have h07 : ((0:Int) = 7) = False := by norm_num
    have h00 : ((0:Int) ≠ 0) = False := by norm_num
    have hBW : (('B':Char) = 'W') = False := by decide
    have heqT : ((0:Int) = sr + -1) = True := eq_true her
    have hscne : (sc = ec) = False := by
      simp only [eq_iff_iff, iff_false]
      omega
    have habT : ((sc - ec).natAbs = 1) = True := eq_true hab
    have hxT : (arr.c0 = 'x') = True := eq_true hx
    have hy2T : (d.c0 = 'y') = True := eq_true hy2
    simp only [lm_pawn, hdir, h07, h00, hBW, hxT, hy2T, heqT, hscne, habT,
      eq_self_iff_true, ne_eq, true_and, and_true, false_and, and_false,
      or_false, false_or, if_true, ite_true, not_true, not_false_eq_true,
      ite_false, if_false]
    split_ifs with hA hB hC
    · obtain ⟨hleg, hP, hK, hC1⟩ := hA
      constructor
      · intro hbad
        rcases hbad with hb | hb | hb <;> simp_all
      · intro hacc
        simp only [bset_get_self]
        rw [hC1]
    · exact ⟨fun _ => rfl, fun habs => absurd habs (by simp)⟩
    · exfalso
      tauto
    · exact ⟨fun _ => rfl, fun habs => absurd habs (by simp)⟩

/-- Witness for C9 on the concrete horizontal line from (0,0) to (0,5) of
gC9, whose square (0,3) is occupied. -/
theorem c9_witness :
    onLine 0 0 0 5 ∧
    (clear_path gC9 noDir 0 0 0 5 = true ↔
      ((∀ k : Nat, 1 ≤ k → k < lineLen 0 0 0 5 →
          gC9.board (0 + (k : Int) * stepOf (0 - 0))
            (0 + (k : Int) * stepOf (5 - 0)) = 0) ∧
       (gC9.board 0 5 = 0 ∨ noDir.c0 = 'x'))) :=
  ⟨by decide, c9_clear_path_follows_spec gC9 noDir 0 0 0 5 (by decide)⟩

/-- Witness for C5 (amended) at the white pawn promotion to a knight on
gC5. -/
theorem c5_amended_witness :
    ((('W' : Char) = 'W' ∧ (1 : Int) = 1 ∧ (7 : Int) = 7) ∧
     ((0 : Int) = 0 ∧ (7 : Int) = 6 + 1 ∧ dirYWN.c0 = 'y' ∧
      dirYWN = dirYWN)) ∧
    ((dirYWN.c2 = 'P' ∨ dirYWN.c2 = 'K' ∨ dirYWN.c1 ≠ 'W') →
      (legal_move 'W' gC5 6 0 7 0 1 dirYWN noDir).1 = false) ∧
    ((legal_move 'W' gC5 6 0 7 0 1 dirYWN noDir).1 = true →
      (legal_move 'W' gC5 6 0 7 0 1 dirYWN noDir).2.board 6 0 =
        promoVal 'W' dirYWN.c2) :=
  ⟨⟨⟨rfl, rfl, rfl⟩, ⟨rfl, by norm_num, rfl, rfl⟩⟩,
   c5_amended_far_rank_promotion 'W' gC5 6 0 7 0 1 dirYWN noDir dirYWN
     (Or.inl ⟨rfl, rfl, rfl⟩) (Or.inl ⟨rfl, by norm_num, rfl, rfl⟩)⟩

end Chess
